import Mathlib

/-
Shallow embedding of `radon/visitors.py`: the record model (`Function`,
`Class`), the cyclomatic-complexity visitor (`ComplexityVisitor`) and the
Halstead visitor (`HalsteadVisitor`), together with proofs about them.

Conventions of the embedding:
- A Python AST node is modelled by `Radon.Node`.  Every node kind that either
  visitor treats specially gets its own constructor carrying the fields the
  source reads; every other node kind is `Node.Other kind children`.
- Operator tag nodes (`Add`, `Not`, `Lt`, ...) are carried as their class-name
  string.  In the Python tree they are also child nodes, but both visitors
  treat them as zero-contribution leaves (no handler matches them and they
  have no children), so eliding them from the child lists is behaviour
  preserving.
- Python integers are `Int` (or `Nat` for counters that only grow).
- Visitor objects are immutable states threaded through the traversal; a
  mutating Python method becomes a state-to-state function.
-/

namespace Radon

/-- Model of a Python AST node.  Child lists follow the field order of the
corresponding `ast` node class, which is the order `ast.iter_child_nodes`
yields children in.  `Assert` carries its optional message as a list that is
empty or a singleton.  `Other` covers every node kind neither visitor
dispatches on specially (for example `Module`, `Assign`, `Expr`, `Return`,
`Pass`, `ExceptHandler`, string literals). -/
inductive Node where
  | Try (body : List Node) (handlers : List Node) (orelse : List Node)
      (finalbody : List Node)
  | BoolOp (op : String) (values : List Node)
  | Lambda (args : List Node) (body : Node)
  | With (items : List Node) (body : List Node)
  | If (test : Node) (body : List Node) (orelse : List Node)
  | IfExp (test : Node) (thenBody : Node) (elseBody : Node)
  | Assert (test : Node) (msg : List Node)
  | For (target : Node) (iter : Node) (body : List Node) (orelse : List Node)
  | While (test : Node) (body : List Node) (orelse : List Node)
  | comprehension (target : Node) (iter : Node) (ifs : List Node)
  | FunctionDef (name : String) (lineno : Nat) (col_offset : Nat)
      (args : List Node) (decorator_list : List Node) (body : List Node)
  | ClassDef (name : String) (lineno : Nat) (col_offset : Nat)
      (bases : List Node) (decorator_list : List Node) (body : List Node)
  | BinOp (left : Node) (op : String) (right : Node)
  | UnaryOp (op : String) (operand : Node)
  | AugAssign (target : Node) (op : String) (value : Node)
  | Compare (left : Node) (ops : List String) (comparators : List Node)
  | Num (n : Int)
  | Name (id : String)
  | Attribute (value : Node) (attr : String)
  | Other (kind : String) (children : List Node)

/-- The `Function` namedtuple of `radon.visitors`: name, position, method
flag, enclosing class name, nested functions ("clojures") and complexity. -/
inductive Function where
  | mk (name : String) (lineno : Nat) (col_offset : Nat) (is_method : Bool)
      (classname : Option String) (clojures : List Function) (complexity : Int)

def Function.name : Function → String
  | .mk n _ _ _ _ _ _ => n

def Function.lineno : Function → Nat
  | .mk _ l _ _ _ _ _ => l

def Function.col_offset : Function → Nat
  | .mk _ _ c _ _ _ _ => c

def Function.is_method : Function → Bool
  | .mk _ _ _ m _ _ _ => m

def Function.classname : Function → Option String
  | .mk _ _ _ _ c _ _ => c

def Function.clojures : Function → List Function
  | .mk _ _ _ _ _ cl _ => cl

def Function.complexity : Function → Int
  | .mk _ _ _ _ _ _ c => c

/-- `Function.letter`: `M` for a method, `F` otherwise. -/
def Function.letter (f : Function) : String :=
  if f.is_method then "M" else "F"

/-- `Function.fullname`: `classname.name` for a method, else just the name. -/
def Function.fullname (f : Function) : String :=
  match f.classname with
  | none => f.name
  | some c => c ++ "." ++ f.name

/-- The `Class` namedtuple of `radon.visitors`. -/
structure Class where
  name : String
  lineno : Nat
  col_offset : Nat
  methods : List Function
  real_complexity : Int

/-- `Class.complexity`: the source computes
`int(self.real_complexity / float(len(self.methods))) + 1` when there are
methods.  `int()` truncates the quotient toward zero, which `Int.tdiv` does on
the exact quotient; the float rounding of the source is modelled as exact
division. -/
def Class.complexity (c : Class) : Int :=
  if c.methods.isEmpty then c.real_complexity
  else Int.tdiv c.real_complexity c.methods.length + 1

/-- State of `ComplexityVisitor`: the running counter, the records found at
this level, and the configuration parameters of `__init__`. -/
structure ComplexityVisitor where
  off : Bool
  complexity : Int
  functions : List Function
  classes : List Class
  to_method : Bool
  classname : Option String

namespace ComplexityVisitor

/-- `ComplexityVisitor.__init__(to_method, classname, off)`: the counter
starts at 1 when `off` is true and at 0 otherwise. -/
def init (to_method : Bool) (classname : Option String) (off : Bool) :
    ComplexityVisitor :=
  ⟨off, if off then 1 else 0, [], [], to_method, classname⟩

/-- `functions_complexity`: sum of the complexities of the discovered
functions minus their number. -/
def functions_complexity (s : ComplexityVisitor) : Int :=
  (s.functions.map Function.complexity).sum - s.functions.length

/-- `classes_complexity`: sum of the real complexities of the discovered
classes minus their number. -/
def classes_complexity (s : ComplexityVisitor) : Int :=
  (s.classes.map Class.real_complexity).sum - s.classes.length

/-- `total_complexity`: counter plus the two aggregates plus `(not off)`
(Python booleans add as 0 or 1). -/
def total_complexity (s : ComplexityVisitor) : Int :=
  s.complexity + s.functions_complexity + s.classes_complexity +
    (if s.off then 0 else 1)

/-- `self.complexity += k`. -/
def bump (s : ComplexityVisitor) (k : Int) : ComplexityVisitor :=
  { s with complexity := s.complexity + k }

mutual

/-- `ast.NodeVisitor.visit` as specialised by `ComplexityVisitor`:
`FunctionDef` and `ClassDef` go to their handlers, every other node kind goes
to `generic_visit`, which adds the per-kind contribution of
`ComplexityVisitor.generic_visit` and then visits every child. -/
def visit (s : ComplexityVisitor) : Node → ComplexityVisitor
  | .FunctionDef name lineno col _args _decorators body =>
      let r := visitFuncBody body ([], 1)
      { s with functions := s.functions ++
          [Function.mk name lineno col s.to_method s.classname r.1 r.2] }
  | .ClassDef name lineno col _bases _decorators body =>
      let r := visitClassBody name body ([], 1)
      { s with classes := s.classes ++ [⟨name, lineno, col, r.1, r.2⟩] }
  | .Try body handlers orelse finalbody =>
      visitList (visitList (visitList (visitList
        (s.bump (handlers.length + orelse.length)) body) handlers) orelse)
        finalbody
  | .BoolOp _op values =>
      visitList (s.bump ((values.length : Int) - 1)) values
  | .Lambda args body => visit (visitList (s.bump 1) args) body
  | .With items body => visitList (visitList (s.bump 1) items) body
  | .If test body orelse =>
      visitList (visitList (visit (s.bump 1) test) body) orelse
  | .IfExp test thenBody elseBody =>
      visit (visit (visit (s.bump 1) test) thenBody) elseBody
  | .Assert test msg => visitList (visit (s.bump 1) test) msg
  | .For target iter body orelse =>
      visitList (visitList (visit (visit
        (s.bump ((orelse.length : Int) + 1)) target) iter) body) orelse
  | .While test body orelse =>
      visitList (visitList (visit
        (s.bump ((orelse.length : Int) + 1)) test) body) orelse
  | .comprehension target iter ifs =>
      visitList (visit (visit (s.bump ((ifs.length : Int) + 1)) target) iter)
        ifs
  | .BinOp left _op right => visit (visit s left) right
  | .UnaryOp _op operand => visit s operand
  | .AugAssign target _op value => visit (visit s target) value
  | .Compare left _ops comparators => visitList (visit s left) comparators
  | .Num _ => s
  | .Name _ => s
  | .Attribute value _attr => visit s value
  | .Other _kind children => visitList s children

/-- Visiting a list of children in order (the loop inside
`ast.NodeVisitor.generic_visit`). -/
def visitList (s : ComplexityVisitor) : List Node → ComplexityVisitor
  | [] => s
  | n :: ns => visitList (visit s n) ns

/-- The loop of `visit_FunctionDef`: for each statement of the body run a
fresh visitor with `off=False`, extend the clojure list with the functions it
found and add `visitor.complexity + visitor.functions_complexity` to the
running body complexity.  The accumulator starts at `([], 1)`. -/
def visitFuncBody : List Node → List Function × Int → List Function × Int
  | [], acc => acc
  | child :: rest, acc =>
      let visitor := visit (init false none false) child
      visitFuncBody rest (acc.1 ++ visitor.functions,
        acc.2 + visitor.complexity + visitor.functions_complexity)

/-- The loop of `visit_ClassDef`: the fresh visitor is created with
`to_method=True` and the class name; the functions it finds become methods. -/
def visitClassBody (classname : String) :
    List Node → List Function × Int → List Function × Int
  | [], acc => acc
  | child :: rest, acc =>
      let visitor := visit (init true (some classname) false) child
      visitClassBody classname rest (acc.1 ++ visitor.functions,
        acc.2 + visitor.complexity + visitor.functions_complexity)

end

end ComplexityVisitor

/-! ### The `blocks` property

In the source, `blocks` starts with `blocks = self.functions` — an alias of
the list object stored in `self.functions` — and then appends every class and
its methods to that very object.  After the first read, `self.functions`
therefore holds `Function` and `Class` objects mixed.  To express this the
post-traversal engine object is modelled with a heterogeneous cell
`functionsCell`; `ComplexityVisitor.toEngine` injects the traversal result
into it.  `GET_COMPLEXITY` applied to an entry reads `complexity`, which on a
`Class` is the derived property. -/

/-- An element of the (mutable) `self.functions` list object: a `Function`
or, after `blocks` has polluted it, possibly a `Class`. -/
inductive Entry where
  | F (f : Function)
  | C (c : Class)

/-- What `operator.attrgetter("complexity")` returns on a list entry. -/
def Entry.complexity : Entry → Int
  | .F f => f.complexity
  | .C c => c.complexity

/-- Post-traversal engine object, with the `self.functions` list modelled as
a cell that `blocks` can pollute. -/
structure Engine where
  off : Bool
  complexity : Int
  functionsCell : List Entry
  classes : List Class

/-- View the traversal result as an engine object. -/
def ComplexityVisitor.toEngine (s : ComplexityVisitor) : Engine :=
  ⟨s.off, s.complexity, s.functions.map Entry.F, s.classes⟩

namespace Engine

/-- `functions_complexity` read on the engine object: `GET_COMPLEXITY` over
whatever the `self.functions` list currently holds. -/
def functions_complexity (e : Engine) : Int :=
  (e.functionsCell.map Entry.complexity).sum - e.functionsCell.length

def classes_complexity (e : Engine) : Int :=
  (e.classes.map Class.real_complexity).sum - e.classes.length

def total_complexity (e : Engine) : Int :=
  e.complexity + e.functions_complexity + e.classes_complexity +
    (if e.off then 0 else 1)

/-- Reading the `blocks` property: `blocks = self.functions` aliases the list
object, the loop appends each class and its methods to it, and the property
returns that object.  The returned list and the new content of
`self.functions` are therefore the same list. -/
def blocksRead (e : Engine) : List Entry × Engine :=
  let blocks := e.functionsCell ++
    e.classes.flatMap (fun cls => Entry.C cls :: cls.methods.map Entry.F)
  (blocks, { e with functionsCell := blocks })

end Engine

/-! ### The Halstead visitor

Python deduplicates operands in the set `operands_seen` whose elements are
pairs `(context, value)`.  The `value` is the number of a `Num` node, the
string of a `Name` node or the attribute string of an `Attribute` node; for
any other node kind it is the node object itself, compared by object
identity.  In a parsed tree every node object occurs exactly once, and each
handler uses each operand child once, so two such raw operands are never
equal.  The embedding realises object identity by tagging each raw operand
with a fresh number from a counter `nextId` threaded through the whole
traversal (including into the child visitors of `visit_FunctionDef`, which
share the same object space). -/

/-- Normalised operand value: the second component of an `operands_seen`
key. -/
inductive OperandVal where
  | num (n : Int)
  | str (s : String)
  | obj (id : Nat)
deriving DecidableEq

/-- State of `HalsteadVisitor`, plus the object-identity counter `nextId`
(a model artefact, see above). -/
structure HalsteadVisitor where
  operators_seen : Finset String
  operands_seen : Finset (Option String × OperandVal)
  operators : Nat
  operands : Nat
  context : Option String
  nextId : Nat

namespace HalsteadVisitor

/-- `HalsteadVisitor.__init__(context)`, starting the identity counter at
`nid`. -/
def init (context : Option String) (nid : Nat) : HalsteadVisitor :=
  ⟨∅, ∅, 0, 0, context, nid⟩

def distinct_operators (s : HalsteadVisitor) : Nat :=
  s.operators_seen.card

def distinct_operands (s : HalsteadVisitor) : Nat :=
  s.operands_seen.card

/-- `getattr(operand, self.types.get(type(operand), ""), operand)`: a `Num`
keys by its number, a `Name` by its id string, an `Attribute` by its
attribute string, anything else by the node object (a fresh identity). -/
def normalizeKey (o : Node) (nid : Nat) : OperandVal × Nat :=
  match o with
  | .Num n => (.num n, nid)
  | .Name id => (.str id, nid)
  | .Attribute _ attr => (.str attr, nid)
  | _ => (.obj nid, nid + 1)

/-- The operand loop of `dispatch`: add `(context, normalised value)` for
each operand node. -/
def addOperands (ctx : Option String) :
    List Node → Finset (Option String × OperandVal) → Nat →
    Finset (Option String × OperandVal) × Nat
  | [], seen, nid => (seen, nid)
  | o :: os, seen, nid =>
      let r := normalizeKey o nid
      addOperands ctx os (insert (ctx, r.1) seen) r.2

/-- The bookkeeping of `dispatch` before recursing into children: add the
operator and operand counts, record the operator labels and the operand
keys. -/
def step (s : HalsteadVisitor) (nOperators nOperands : Nat)
    (labels : List String) (operandNodes : List Node) : HalsteadVisitor :=
  let r := addOperands s.context operandNodes s.operands_seen s.nextId
  { s with operators := s.operators + nOperators,
           operands := s.operands + nOperands,
           operators_seen := s.operators_seen ∪ labels.toFinset,
           operands_seen := r.1,
           nextId := r.2 }

mutual

/-- `ast.NodeVisitor.visit` as specialised by `HalsteadVisitor`: `BinOp`,
`UnaryOp`, `BoolOp`, `AugAssign` and `Compare` run their `dispatch`-wrapped
handler and then recurse into every child; `FunctionDef` runs a fresh child
visitor per body statement and merges it; every other kind only recurses into
its children. -/
def visit (s : HalsteadVisitor) : Node → HalsteadVisitor
  | .BinOp left op right =>
      visit (visit (step s 1 2 [op] [left, right]) left) right
  | .UnaryOp op operand => visit (step s 1 1 [op] [operand]) operand
  | .BoolOp op values =>
      visitList (step s 1 values.length [op] values) values
  | .AugAssign target op value =>
      visit (visit (step s 1 2 [op] [target, value]) target) value
  | .Compare left ops comparators =>
      visitList (visit (step s ops.length (comparators.length + 1) ops
        (comparators ++ [left])) left) comparators
  | .FunctionDef name _lineno _col _args _decorators body =>
      visitFuncBody name body s
  | .Try body handlers orelse finalbody =>
      visitList (visitList (visitList (visitList s body) handlers) orelse)
        finalbody
  | .Lambda args body => visit (visitList s args) body
  | .With items body => visitList (visitList s items) body
  | .If test body orelse => visitList (visitList (visit s test) body) orelse
  | .IfExp test thenBody elseBody =>
      visit (visit (visit s test) thenBody) elseBody
  | .Assert test msg => visitList (visit s test) msg
  | .For target iter body orelse =>
      visitList (visitList (visit (visit s target) iter) body) orelse
  | .While test body orelse =>
      visitList (visitList (visit s test) body) orelse
  | .comprehension target iter ifs =>
      visitList (visit (visit s target) iter) ifs
  | .ClassDef _name _lineno _col bases decorators body =>
      visitList (visitList (visitList s bases) body) decorators
  | .Num _ => s
  | .Name _ => s
  | .Attribute value _attr => visit s value
  | .Other _kind children => visitList s children

def visitList (s : HalsteadVisitor) : List Node → HalsteadVisitor
  | [] => s
  | n :: ns => visitList (visit s n) ns

/-- The loop of `visit_FunctionDef`: per body statement run a fresh visitor
with `context = node.name` and merge counts (sums) and seen-sets (unions)
into the current visitor.  The identity counter is handed to the child and
taken back from it. -/
def visitFuncBody (fname : String) :
    List Node → HalsteadVisitor → HalsteadVisitor
  | [], s => s
  | child :: rest, s =>
      let v := visit (init (some fname) s.nextId) child
      visitFuncBody fname rest
        { s with operators := s.operators + v.operators,
                 operands := s.operands + v.operands,
                 operators_seen := s.operators_seen ∪ v.operators_seen,
                 operands_seen := s.operands_seen ∪ v.operands_seen,
                 nextId := v.nextId }

end

end HalsteadVisitor

/-! ### Auxiliary definitions used by the theorems -/

/-- Is the node a `FunctionDef`? -/
def Node.isFunctionDef : Node → Bool
  | .FunctionDef _ _ _ _ _ _ => true
  | _ => false

/-- Is the node a `ClassDef`? -/
def Node.isClassDef : Node → Bool
  | .ClassDef _ _ _ _ _ _ => true
  | _ => false

/-- The children of a node in the order `ast.iter_child_nodes` yields them
(with the operator tag nodes elided, see the remark on `Node`).  This is the
list `generic_visit` recurses into. -/
def Node.childrenOf : Node → List Node
  | .Try body handlers orelse finalbody => body ++ handlers ++ orelse ++ finalbody
  | .BoolOp _ values => values
  | .Lambda args body => args ++ [body]
  | .With items body => items ++ body
  | .If test body orelse => test :: (body ++ orelse)
  | .IfExp test thenBody elseBody => [test, thenBody, elseBody]
  | .Assert test msg => test :: msg
  | .For target iter body orelse => target :: iter :: (body ++ orelse)
  | .While test body orelse => test :: (body ++ orelse)
  | .comprehension target iter ifs => target :: iter :: ifs
  | .FunctionDef _ _ _ args decorators body => args ++ body ++ decorators
  | .ClassDef _ _ _ bases decorators body => bases ++ body ++ decorators
  | .BinOp left _ right => [left, right]
  | .UnaryOp _ operand => [operand]
  | .AugAssign target _ value => [target, value]
  | .Compare left _ comparators => left :: comparators
  | .Num _ => []
  | .Name _ => []
  | .Attribute value _ => [value]
  | .Other _ children => children

/-- The per-kind counter contribution table of `generic_visit`, stated
separately from the traversal so that the refinement theorem for claim C4 can
compare the two. -/
def ComplexityVisitor.contribution : Node → Int
  | .Try _ handlers orelse _ => handlers.length + orelse.length
  | .BoolOp _ values => (values.length : Int) - 1
  | .Lambda _ _ => 1
  | .With _ _ => 1
  | .If _ _ _ => 1
  | .IfExp _ _ _ => 1
  | .Assert _ _ => 1
  | .For _ _ _ orelse => (orelse.length : Int) + 1
  | .While _ _ orelse => (orelse.length : Int) + 1
  | .comprehension _ _ ifs => (ifs.length : Int) + 1
  | _ => 0

mutual

/-- Parser well-formedness: every `BoolOp` in the tree has at least two
operands, as every tree produced by `ast.parse` does (`a and b` is the
smallest boolean chain).  The visitors are analysed under this assumption,
matching the contract that the input tree is syntactically valid. -/
def Node.wf : Node → Bool
  | .Try body handlers orelse finalbody =>
      Node.wfList body && Node.wfList handlers && Node.wfList orelse &&
        Node.wfList finalbody
  | .BoolOp _ values => decide (2 ≤ values.length) && Node.wfList values
  | .Lambda args body => Node.wfList args && Node.wf body
  | .With items body => Node.wfList items && Node.wfList body
  | .If test body orelse =>
      Node.wf test && Node.wfList body && Node.wfList orelse
  | .IfExp test thenBody elseBody =>
      Node.wf test && Node.wf thenBody && Node.wf elseBody
  | .Assert test msg => Node.wf test && Node.wfList msg
  | .For target iter body orelse =>
      Node.wf target && Node.wf iter && Node.wfList body && Node.wfList orelse
  | .While test body orelse =>
      Node.wf test && Node.wfList body && Node.wfList orelse
  | .comprehension target iter ifs =>
      Node.wf target && Node.wf iter && Node.wfList ifs
  | .FunctionDef _ _ _ args decorators body =>
      Node.wfList args && Node.wfList decorators && Node.wfList body
  | .ClassDef _ _ _ bases decorators body =>
      Node.wfList bases && Node.wfList decorators && Node.wfList body
  | .BinOp left _ right => Node.wf left && Node.wf right
  | .UnaryOp _ operand => Node.wf operand
  | .AugAssign target _ value => Node.wf target && Node.wf value
  | .Compare left _ comparators => Node.wf left && Node.wfList comparators
  | .Num _ => true
  | .Name _ => true
  | .Attribute value _ => Node.wf value
  | .Other _ children => Node.wfList children

def Node.wfList : List Node → Bool
  | [] => true
  | n :: ns => Node.wf n && Node.wfList ns

end

mutual

/-- The record invariant claimed by the spec for `Function`: complexity at
least 1, recursively also for every clojure. -/
def Function.invOk : Function → Bool
  | .mk _ _ _ _ _ clojures complexity =>
      decide (1 ≤ complexity) && Function.invOkList clojures

def Function.invOkList : List Function → Bool
  | [] => true
  | f :: fs => Function.invOk f && Function.invOkList fs

end

/-- The record invariant claimed by the spec for `Class`: real complexity at
least 1 and every method satisfying the `Function` invariant. -/
def Class.invOk (c : Class) : Bool :=
  decide (1 ≤ c.real_complexity) && Function.invOkList c.methods

def Class.invOkList (cs : List Class) : Bool :=
  cs.all Class.invOk

/-- One traversal step seen through the C9 invariant: the counter does not
decrease and the two record lists stay invariant-satisfying. -/
def ComplexityVisitor.InvStep (a b : ComplexityVisitor) : Prop :=
  a.complexity ≤ b.complexity ∧
  (Function.invOkList a.functions = true →
    Function.invOkList b.functions = true) ∧
  (Class.invOkList a.classes = true → Class.invOkList b.classes = true)

namespace ComplexityVisitor

/-- What one traversal adds to a visitor state: a counter increment and the
records appended to the two lists.  Derived helper for the frame lemma; it is
proved equal to `visit` from a zero state, it is not a second model. -/
structure Delta where
  dc : Int
  df : List Function
  dcl : List Class

def dAdd (a b : Delta) : Delta := ⟨a.dc + b.dc, a.df ++ b.df, a.dcl ++ b.dcl⟩

def dBump (k : Int) : Delta := ⟨k, [], []⟩

/-- Apply a delta to a state. -/
def applyDelta (s : ComplexityVisitor) (d : Delta) : ComplexityVisitor :=
  { s with complexity := s.complexity + d.dc,
           functions := s.functions ++ d.df,
           classes := s.classes ++ d.dcl }

mutual

/-- The delta `visit` produces, computed directly by recursion; `m`/`cn` are
the `to_method`/`classname` configuration of the visiting engine. -/
def deltaOf (m : Bool) (cn : Option String) : Node → Delta
  | .FunctionDef name lineno col _args _decorators body =>
      ⟨0, [Function.mk name lineno col m cn (visitFuncBody body ([], 1)).1
        (visitFuncBody body ([], 1)).2], []⟩
  | .ClassDef name lineno col _bases _decorators body =>
      ⟨0, [], [⟨name, lineno, col, (visitClassBody name body ([], 1)).1,
        (visitClassBody name body ([], 1)).2⟩]⟩
  | .Try body handlers orelse finalbody =>
      dAdd (dAdd (dAdd (dAdd (dBump (handlers.length + orelse.length))
        (deltaList m cn body)) (deltaList m cn handlers))
        (deltaList m cn orelse)) (deltaList m cn finalbody)
  | .BoolOp _op values =>
      dAdd (dBump ((values.length : Int) - 1)) (deltaList m cn values)
  | .Lambda args body =>
      dAdd (dAdd (dBump 1) (deltaList m cn args)) (deltaOf m cn body)
  | .With items body =>
      dAdd (dAdd (dBump 1) (deltaList m cn items)) (deltaList m cn body)
  | .If test body orelse =>
      dAdd (dAdd (dAdd (dBump 1) (deltaOf m cn test)) (deltaList m cn body))
        (deltaList m cn orelse)
  | .IfExp test thenBody elseBody =>
      dAdd (dAdd (dAdd (dBump 1) (deltaOf m cn test))
        (deltaOf m cn thenBody)) (deltaOf m cn elseBody)
  | .Assert test msg =>
      dAdd (dAdd (dBump 1) (deltaOf m cn test)) (deltaList m cn msg)
  | .For target iter body orelse =>
      dAdd (dAdd (dAdd (dAdd (dBump ((orelse.length : Int) + 1))
        (deltaOf m cn target)) (deltaOf m cn iter)) (deltaList m cn body))
        (deltaList m cn orelse)
  | .While test body orelse =>
      dAdd (dAdd (dAdd (dBump ((orelse.length : Int) + 1))
        (deltaOf m cn test)) (deltaList m cn body)) (deltaList m cn orelse)
  | .comprehension target iter ifs =>
      dAdd (dAdd (dAdd (dBump ((ifs.length : Int) + 1))
        (deltaOf m cn target)) (deltaOf m cn iter)) (deltaList m cn ifs)
  | .BinOp left _op right =>
      dAdd (deltaOf m cn left) (deltaOf m cn right)
  | .UnaryOp _op operand => deltaOf m cn operand
  | .AugAssign target _op value =>
      dAdd (deltaOf m cn target) (deltaOf m cn value)
  | .Compare left _ops comparators =>
      dAdd (deltaOf m cn left) (deltaList m cn comparators)
  | .Num _ => dBump 0
  | .Name _ => dBump 0
  | .Attribute value _attr => deltaOf m cn value
  | .Other _kind children => deltaList m cn children

def deltaList (m : Bool) (cn : Option String) : List Node → Delta
  | [] => dBump 0
  | n :: ns => dAdd (deltaOf m cn n) (deltaList m cn ns)

end

end ComplexityVisitor

mutual

/-- Two trees are related when they are identical except that, at any
`FunctionDef`, the argument subtree and the decorator list may differ
arbitrarily.  This is the relation of claim C10: the trees differ only in
decorator expressions or default-argument expressions of functions. -/
inductive SimN : Node → Node → Prop where
  | funcDef {n : String} {l c : Nat} {a₁ d₁ a₂ d₂ b₁ b₂ : List Node} :
      SimL b₁ b₂ →
      SimN (.FunctionDef n l c a₁ d₁ b₁) (.FunctionDef n l c a₂ d₂ b₂)
  | try_ {b₁ b₂ h₁ h₂ o₁ o₂ f₁ f₂ : List Node} :
      SimL b₁ b₂ → SimL h₁ h₂ → SimL o₁ o₂ → SimL f₁ f₂ →
      SimN (.Try b₁ h₁ o₁ f₁) (.Try b₂ h₂ o₂ f₂)
  | boolOp {op : String} {v₁ v₂ : List Node} :
      SimL v₁ v₂ → SimN (.BoolOp op v₁) (.BoolOp op v₂)
  | lambda {a₁ a₂ : List Node} {b₁ b₂ : Node} :
      SimL a₁ a₂ → SimN b₁ b₂ → SimN (.Lambda a₁ b₁) (.Lambda a₂ b₂)
  | with_ {i₁ i₂ b₁ b₂ : List Node} :
      SimL i₁ i₂ → SimL b₁ b₂ → SimN (.With i₁ b₁) (.With i₂ b₂)
  | if_ {t₁ t₂ : Node} {b₁ b₂ o₁ o₂ : List Node} :
      SimN t₁ t₂ → SimL b₁ b₂ → SimL o₁ o₂ →
      SimN (.If t₁ b₁ o₁) (.If t₂ b₂ o₂)
  | ifExp {t₁ t₂ u₁ u₂ v₁ v₂ : Node} :
      SimN t₁ t₂ → SimN u₁ u₂ → SimN v₁ v₂ →
      SimN (.IfExp t₁ u₁ v₁) (.IfExp t₂ u₂ v₂)
  | assert_ {t₁ t₂ : Node} {m₁ m₂ : List Node} :
      SimN t₁ t₂ → SimL m₁ m₂ → SimN (.Assert t₁ m₁) (.Assert t₂ m₂)
  | for_ {t₁ t₂ i₁ i₂ : Node} {b₁ b₂ o₁ o₂ : List Node} :
      SimN t₁ t₂ → SimN i₁ i₂ → SimL b₁ b₂ → SimL o₁ o₂ →
      SimN (.For t₁ i₁ b₁ o₁) (.For t₂ i₂ b₂ o₂)
  | while_ {t₁ t₂ : Node} {b₁ b₂ o₁ o₂ : List Node} :
      SimN t₁ t₂ → SimL b₁ b₂ → SimL o₁ o₂ →
      SimN (.While t₁ b₁ o₁) (.While t₂ b₂ o₂)
  | compr {t₁ t₂ i₁ i₂ : Node} {f₁ f₂ : List Node} :
      SimN t₁ t₂ → SimN i₁ i₂ → SimL f₁ f₂ →
      SimN (.comprehension t₁ i₁ f₁) (.comprehension t₂ i₂ f₂)
  | classDef {n : String} {l c : Nat} {ba₁ ba₂ d₁ d₂ b₁ b₂ : List Node} :
      SimL ba₁ ba₂ → SimL d₁ d₂ → SimL b₁ b₂ →
      SimN (.ClassDef n l c ba₁ d₁ b₁) (.ClassDef n l c ba₂ d₂ b₂)
  | binOp {l₁ l₂ r₁ r₂ : Node} {op : String} :
      SimN l₁ l₂ → SimN r₁ r₂ → SimN (.BinOp l₁ op r₁) (.BinOp l₂ op r₂)
  | unaryOp {op : String} {o₁ o₂ : Node} :
      SimN o₁ o₂ → SimN (.UnaryOp op o₁) (.UnaryOp op o₂)
  | augAssign {t₁ t₂ v₁ v₂ : Node} {op : String} :
      SimN t₁ t₂ → SimN v₁ v₂ →
      SimN (.AugAssign t₁ op v₁) (.AugAssign t₂ op v₂)
  | compare {l₁ l₂ : Node} {ops : List String} {c₁ c₂ : List Node} :
      SimN l₁ l₂ → SimL c₁ c₂ →
      SimN (.Compare l₁ ops c₁) (.Compare l₂ ops c₂)
  | num {n : Int} : SimN (.Num n) (.Num n)
  | name {id : String} : SimN (.Name id) (.Name id)
  | attr {v₁ v₂ : Node} {a : String} :
      SimN v₁ v₂ → SimN (.Attribute v₁ a) (.Attribute v₂ a)
  | other {k : String} {c₁ c₂ : List Node} :
      SimL c₁ c₂ → SimN (.Other k c₁) (.Other k c₂)

inductive SimL : List Node → List Node → Prop where
  | nil : SimL [] []
  | cons {a b : Node} {l₁ l₂ : List Node} :
      SimN a b → SimL l₁ l₂ → SimL (a :: l₁) (b :: l₂)

end

/-! ## Lemmas -/

namespace ComplexityVisitor

@[simp] theorem init_off (m : Bool) (cn : Option String) (o : Bool) :
    (init m cn o).off = o := rfl

@[simp] theorem init_to_method (m : Bool) (cn : Option String) (o : Bool) :
    (init m cn o).to_method = m := rfl

@[simp] theorem init_classname (m : Bool) (cn : Option String) (o : Bool) :
    (init m cn o).classname = cn := rfl

@[simp] theorem init_functions (m : Bool) (cn : Option String) (o : Bool) :
    (init m cn o).functions = [] := rfl

@[simp] theorem init_classes (m : Bool) (cn : Option String) (o : Bool) :
    (init m cn o).classes = [] := rfl

@[simp] theorem bump_off (s : ComplexityVisitor) (k : Int) :
    (s.bump k).off = s.off := rfl

@[simp] theorem bump_to_method (s : ComplexityVisitor) (k : Int) :
    (s.bump k).to_method = s.to_method := rfl

@[simp] theorem bump_classname (s : ComplexityVisitor) (k : Int) :
    (s.bump k).classname = s.classname := rfl

@[simp] theorem bump_functions (s : ComplexityVisitor) (k : Int) :
    (s.bump k).functions = s.functions := rfl

@[simp] theorem bump_classes (s : ComplexityVisitor) (k : Int) :
    (s.bump k).classes = s.classes := rfl

@[simp] theorem bump_complexity (s : ComplexityVisitor) (k : Int) :
    (s.bump k).complexity = s.complexity + k := rfl

@[simp] theorem bump_zero (s : ComplexityVisitor) : s.bump 0 = s := by
  cases s
  simp [bump]

theorem visitList_append (s : ComplexityVisitor) (l₁ l₂ : List Node) :
    visitList s (l₁ ++ l₂) = visitList (visitList s l₁) l₂ := by
  induction l₁ generalizing s with
  | nil => simp [visitList]
  | cons n ns ih => simp [visitList, ih]

@[simp] theorem applyDelta_off (s : ComplexityVisitor) (d : Delta) :
    (applyDelta s d).off = s.off := rfl

@[simp] theorem applyDelta_to_method (s : ComplexityVisitor) (d : Delta) :
    (applyDelta s d).to_method = s.to_method := rfl

@[simp] theorem applyDelta_classname (s : ComplexityVisitor) (d : Delta) :
    (applyDelta s d).classname = s.classname := rfl

@[simp] theorem applyDelta_complexity (s : ComplexityVisitor) (d : Delta) :
    (applyDelta s d).complexity = s.complexity + d.dc := rfl

@[simp] theorem applyDelta_functions (s : ComplexityVisitor) (d : Delta) :
    (applyDelta s d).functions = s.functions ++ d.df := rfl

@[simp] theorem applyDelta_classes (s : ComplexityVisitor) (d : Delta) :
    (applyDelta s d).classes = s.classes ++ d.dcl := rfl

theorem applyDelta_applyDelta (s : ComplexityVisitor) (a b : Delta) :
    applyDelta (applyDelta s a) b = applyDelta s (dAdd a b) := by
  cases s
  simp [applyDelta, dAdd, add_assoc]

theorem bump_eq_applyDelta (s : ComplexityVisitor) (k : Int) :
    s.bump k = applyDelta s (dBump k) := by
  cases s
  simp [bump, applyDelta, dBump]

theorem applyDelta_zero (s : ComplexityVisitor) :
    applyDelta s (dBump 0) = s := by
  cases s
  simp [applyDelta, dBump]

mutual

/-- Frame lemma: one traversal step only appends to the record lists and adds
to the counter, and what it adds does not depend on the initial counter, the
already-collected records or the `off` flag — only on the tree and the
`to_method`/`classname` configuration. -/
theorem visit_applyDelta : ∀ (t : Node) (s : ComplexityVisitor),
    visit s t = applyDelta s (deltaOf s.to_method s.classname t)
  | .FunctionDef name lineno col args decorators body, s => by
      cases s
      simp [visit, deltaOf, applyDelta]
  | .ClassDef name lineno col bases decorators body, s => by
      cases s
      simp [visit, deltaOf, applyDelta]
  | .Try body handlers orelse finalbody, s => by
      simp only [visit, deltaOf, visit_applyDelta, visitList_applyDelta body,
        visitList_applyDelta handlers, visitList_applyDelta orelse,
        visitList_applyDelta finalbody, applyDelta_to_method,
        applyDelta_classname, bump_to_method, bump_classname,
        bump_eq_applyDelta, applyDelta_applyDelta]
  | .BoolOp op values, s => by
      simp only [visit, deltaOf, visitList_applyDelta values,
        applyDelta_to_method, applyDelta_classname, bump_to_method,
        bump_classname, bump_eq_applyDelta, applyDelta_applyDelta]
  | .Lambda args body, s => by
      simp only [visit, deltaOf, visitList_applyDelta args,
        visit_applyDelta body, applyDelta_to_method, applyDelta_classname,
        bump_to_method, bump_classname, bump_eq_applyDelta,
        applyDelta_applyDelta]
  | .With items body, s => by
      simp only [visit, deltaOf, visitList_applyDelta items,
        visitList_applyDelta body, applyDelta_to_method, applyDelta_classname,
        bump_to_method, bump_classname, bump_eq_applyDelta,
        applyDelta_applyDelta]
  | .If test body orelse, s => by
      simp only [visit, deltaOf, visit_applyDelta test,
        visitList_applyDelta body, visitList_applyDelta orelse,
        applyDelta_to_method, applyDelta_classname, bump_to_method,
        bump_classname, bump_eq_applyDelta, applyDelta_applyDelta]
  | .IfExp test thenBody elseBody, s => by
      simp only [visit, deltaOf, visit_applyDelta test,
        visit_applyDelta thenBody, visit_applyDelta elseBody,
        applyDelta_to_method, applyDelta_classname, bump_to_method,
        bump_classname, bump_eq_applyDelta, applyDelta_applyDelta]
  | .Assert test msg, s => by
      simp only [visit, deltaOf, visit_applyDelta test,
        visitList_applyDelta msg, applyDelta_to_method, applyDelta_classname,
        bump_to_method, bump_classname, bump_eq_applyDelta,
        applyDelta_applyDelta]
  | .For target iter body orelse, s => by
      simp only [visit, deltaOf, visit_applyDelta target,
        visit_applyDelta iter, visitList_applyDelta body,
        visitList_applyDelta orelse, applyDelta_to_method,
        applyDelta_classname, bump_to_method, bump_classname,
        bump_eq_applyDelta, applyDelta_applyDelta]
  | .While test body orelse, s => by
      simp only [visit, deltaOf, visit_applyDelta test,
        visitList_applyDelta body, visitList_applyDelta orelse,
        applyDelta_to_method, applyDelta_classname, bump_to_method,
        bump_classname, bump_eq_applyDelta, applyDelta_applyDelta]
  | .comprehension target iter ifs, s => by
      simp only [visit, deltaOf, visit_applyDelta target,
        visit_applyDelta iter, visitList_applyDelta ifs,
        applyDelta_to_method, applyDelta_classname, bump_to_method,
        bump_classname, bump_eq_applyDelta, applyDelta_applyDelta]
  | .BinOp left op right, s => by
      simp only [visit, deltaOf, visit_applyDelta left,
        visit_applyDelta right, applyDelta_to_method, applyDelta_classname,
        applyDelta_applyDelta]
  | .UnaryOp op operand, s => by
      simp only [visit, deltaOf, visit_applyDelta operand]
  | .AugAssign target op value, s => by
      simp only [visit, deltaOf, visit_applyDelta target,
        visit_applyDelta value, applyDelta_to_method, applyDelta_classname,
        applyDelta_applyDelta]
  | .Compare left ops comparators, s => by
      simp only [visit, deltaOf, visit_applyDelta left,
        visitList_applyDelta comparators, applyDelta_to_method,
        applyDelta_classname, applyDelta_applyDelta]
  | .Num n, s => by
      simp only [visit, deltaOf, applyDelta_zero]
  | .Name id, s => by
      simp only [visit, deltaOf, applyDelta_zero]
  | .Attribute value attr, s => by
      simp only [visit, deltaOf, visit_applyDelta value]
  | .Other kind children, s => by
      simp only [visit, deltaOf, visitList_applyDelta children]

theorem visitList_applyDelta : ∀ (l : List Node) (s : ComplexityVisitor),
    visitList s l = applyDelta s (deltaList s.to_method s.classname l)
  | [], s => by
      simp only [visitList, deltaList, applyDelta_zero]
  | n :: ns, s => by
      simp only [visitList, deltaList, visit_applyDelta n,
        visitList_applyDelta ns, applyDelta_to_method, applyDelta_classname,
        applyDelta_applyDelta]

end

end ComplexityVisitor

namespace ComplexityVisitor

/-- The loop of `visit_FunctionDef`, characterised by `flatMap` and a sum
over the body statements. -/
theorem visitFuncBody_spec (body : List Node) (cl : List Function) (bc : Int) :
    visitFuncBody body (cl, bc) =
      (cl ++ body.flatMap
          (fun st => (visit (init false none false) st).functions),
       bc + (body.map (fun st => (visit (init false none false) st).complexity
          + (visit (init false none false) st).functions_complexity)).sum) := by
  induction body generalizing cl bc with
  | nil => simp [visitFuncBody]
  | cons child rest ih =>
      simp [visitFuncBody, ih, add_assoc]

/-- The loop of `visit_ClassDef`, characterised the same way. -/
theorem visitClassBody_spec (classname : String) (body : List Node)
    (cl : List Function) (bc : Int) :
    visitClassBody classname body (cl, bc) =
      (cl ++ body.flatMap
          (fun st => (visit (init true (some classname) false) st).functions),
       bc + (body.map
          (fun st => (visit (init true (some classname) false) st).complexity
            + functions_complexity
                (visit (init true (some classname) false) st))).sum) := by
  induction body generalizing cl bc with
  | nil => simp [visitClassBody]
  | cons child rest ih =>
      simp [visitClassBody, ih, add_assoc]

end ComplexityVisitor

theorem Function.invOkList_append (l₁ l₂ : List Function) :
    Function.invOkList (l₁ ++ l₂)
      = (Function.invOkList l₁ && Function.invOkList l₂) := by
  induction l₁ with
  | nil => simp [Function.invOkList]
  | cons f fs ih => simp [Function.invOkList, ih, Bool.and_assoc]

/-- Under the invariant, the summed function complexities dominate the list
length, so `functions_complexity` is nonnegative. -/
theorem Function.invOkList_sum (l : List Function)
    (h : Function.invOkList l = true) :
    (l.length : Int) ≤ (l.map Function.complexity).sum := by
  induction l with
  | nil => simp
  | cons f fs ih =>
      obtain ⟨hf, hfs⟩ := by simpa [Function.invOkList] using h
      have h1 : 1 ≤ f.complexity := by
        obtain ⟨n, l', c', m', cn', cl', k⟩ := f
        simp only [Function.invOk, Bool.and_eq_true, decide_eq_true_eq] at hf
        simpa [Function.complexity] using hf.1
      have := ih hfs
      simp only [List.map_cons, List.sum_cons, List.length_cons]
      push_cast
      linarith

namespace ComplexityVisitor

theorem functions_complexity_nonneg (s : ComplexityVisitor)
    (h : Function.invOkList s.functions = true) :
    0 ≤ s.functions_complexity := by
  have := Function.invOkList_sum s.functions h
  simp only [functions_complexity]
  linarith

theorem InvStep.rfl (s : ComplexityVisitor) : InvStep s s :=
  ⟨le_refl _, fun h => h, fun h => h⟩

theorem InvStep.trans {a b c : ComplexityVisitor}
    (h₁ : InvStep a b) (h₂ : InvStep b c) : InvStep a c :=
  ⟨le_trans h₁.1 h₂.1, fun h => h₂.2.1 (h₁.2.1 h), fun h => h₂.2.2 (h₁.2.2 h)⟩

theorem InvStep.bump (s : ComplexityVisitor) (k : Int) (hk : 0 ≤ k) :
    InvStep s (s.bump k) :=
  ⟨by simp [ComplexityVisitor.bump]; linarith, fun h => h, fun h => h⟩

mutual

/-- C9 induction: every traversal step preserves the record invariants and
never decreases the counter, on well-formed trees. -/
theorem visit_inv : ∀ (t : Node) (s : ComplexityVisitor),
    Node.wf t = true → InvStep s (visit s t)
  | .FunctionDef name lineno col args decorators body, s => by
      intro hwf
      simp only [Node.wf, Bool.and_eq_true] at hwf
      have hb := visitFuncBody_inv body ([], 1) hwf.2
      refine ⟨le_refl _, fun h => ?_, fun h => h⟩
      rw [visit]
      simp only [Function.invOkList_append, Bool.and_eq_true]
      refine ⟨h, ?_⟩
      have h1 : (1 : Int) ≤ (visitFuncBody body ([], 1)).2 := hb.1
      have h2 := hb.2 (by simp [Function.invOkList])
      simp [Function.invOkList, Function.invOk, h1, h2]
  | .ClassDef name lineno col bases decorators body, s => by
      intro hwf
      simp only [Node.wf, Bool.and_eq_true] at hwf
      have hb := visitClassBody_inv name body ([], 1) hwf.2
      refine ⟨le_refl _, fun h => h, fun h => ?_⟩
      rw [visit]
      simp only [Class.invOkList, List.all_append, Bool.and_eq_true] at h ⊢
      refine ⟨h, ?_⟩
      have h1 : (1 : Int) ≤ (visitClassBody name body ([], 1)).2 := hb.1
      have h2 := hb.2 (by simp [Function.invOkList])
      simp [Class.invOk, h1, h2]
  | .Try body handlers orelse finalbody, s => by
      intro hwf
      simp only [Node.wf, Bool.and_eq_true] at hwf
      exact .trans (.trans (.trans (.trans
        (.bump s _ (by positivity)) (visitList_inv body _ hwf.1.1.1))
        (visitList_inv handlers _ hwf.1.1.2)) (visitList_inv orelse _ hwf.1.2))
        (visitList_inv finalbody _ hwf.2)
  | .BoolOp op values, s => by
      intro hwf
      simp only [Node.wf, Bool.and_eq_true, decide_eq_true_eq] at hwf
      refine .trans (.bump s _ ?_) (visitList_inv values _ hwf.2)
      have := hwf.1
      omega
  | .Lambda args body, s => by
      intro hwf
      simp only [Node.wf, Bool.and_eq_true] at hwf
      exact .trans (.trans (.bump s 1 (by norm_num))
        (visitList_inv args _ hwf.1)) (visit_inv body _ hwf.2)
  | .With items body, s => by
      intro hwf
      simp only [Node.wf, Bool.and_eq_true] at hwf
      exact .trans (.trans (.bump s 1 (by norm_num))
        (visitList_inv items _ hwf.1)) (visitList_inv body _ hwf.2)
  | .If test body orelse, s => by
      intro hwf
      simp only [Node.wf, Bool.and_eq_true] at hwf
      exact .trans (.trans (.trans (.bump s 1 (by norm_num))
        (visit_inv test _ hwf.1.1)) (visitList_inv body _ hwf.1.2))
        (visitList_inv orelse _ hwf.2)
  | .IfExp test thenBody elseBody, s => by
      intro hwf
      simp only [Node.wf, Bool.and_eq_true] at hwf
      exact .trans (.trans (.trans (.bump s 1 (by norm_num))
        (visit_inv test _ hwf.1.1)) (visit_inv thenBody _ hwf.1.2))
        (visit_inv elseBody _ hwf.2)
  | .Assert test msg, s => by
      intro hwf
      simp only [Node.wf, Bool.and_eq_true] at hwf
      exact .trans (.trans (.bump s 1 (by norm_num))
        (visit_inv test _ hwf.1)) (visitList_inv msg _ hwf.2)
  | .For target iter body orelse, s => by
      intro hwf
      simp only [Node.wf, Bool.and_eq_true] at hwf
      exact .trans (.trans (.trans (.trans (.bump s _ (by positivity))
        (visit_inv target _ hwf.1.1.1)) (visit_inv iter _ hwf.1.1.2))
        (visitList_inv body _ hwf.1.2)) (visitList_inv orelse _ hwf.2)
  | .While test body orelse, s => by
      intro hwf
      simp only [Node.wf, Bool.and_eq_true] at hwf
      exact .trans (.trans (.trans (.bump s _ (by positivity))
        (visit_inv test _ hwf.1.1)) (visitList_inv body _ hwf.1.2))
        (visitList_inv orelse _ hwf.2)
  | .comprehension target iter ifs, s => by
      intro hwf
      simp only [Node.wf, Bool.and_eq_true] at hwf
      exact .trans (.trans (.trans (.bump s _ (by positivity))
        (visit_inv target _ hwf.1.1)) (visit_inv iter _ hwf.1.2))
        (visitList_inv ifs _ hwf.2)
  | .BinOp left op right, s => by
      intro hwf
      simp only [Node.wf, Bool.and_eq_true] at hwf
      exact .trans (visit_inv left _ hwf.1) (visit_inv right _ hwf.2)
  | .UnaryOp op operand, s => by
      intro hwf
      simp only [Node.wf] at hwf
      exact visit_inv operand _ hwf
  | .AugAssign target op value, s => by
      intro hwf
      simp only [Node.wf, Bool.and_eq_true] at hwf
      exact .trans (visit_inv target _ hwf.1) (visit_inv value _ hwf.2)
  | .Compare left ops comparators, s => by
      intro hwf
      simp only [Node.wf, Bool.and_eq_true] at hwf
      exact .trans (visit_inv left _ hwf.1)
        (visitList_inv comparators _ hwf.2)
  | .Num n, s => fun _ => .rfl s
  | .Name id, s => fun _ => .rfl s
  | .Attribute value attr, s => by
      intro hwf
      simp only [Node.wf] at hwf
      exact visit_inv value _ hwf
  | .Other kind children, s => by
      intro hwf
      simp only [Node.wf] at hwf
      exact visitList_inv children _ hwf

theorem visitList_inv : ∀ (l : List Node) (s : ComplexityVisitor),
    Node.wfList l = true → InvStep s (visitList s l)
  | [], s => fun _ => .rfl s
  | n :: ns, s => by
      intro hwf
      simp only [Node.wfList, Bool.and_eq_true] at hwf
      exact .trans (visit_inv n s hwf.1) (visitList_inv ns _ hwf.2)

theorem visitFuncBody_inv : ∀ (body : List Node) (acc : List Function × Int),
    Node.wfList body = true →
    acc.2 ≤ (visitFuncBody body acc).2 ∧
    (Function.invOkList acc.1 = true →
      Function.invOkList (visitFuncBody body acc).1 = true)
  | [], acc => fun _ => ⟨le_refl _, fun h => h⟩
  | child :: rest, acc => by
      intro hwf
      simp only [Node.wfList, Bool.and_eq_true] at hwf
      have hc := visit_inv child (init false none false) hwf.1
      have hrest := visitFuncBody_inv rest
        (acc.1 ++ (visit (init false none false) child).functions,
         acc.2 + (visit (init false none false) child).complexity
           + functions_complexity (visit (init false none false) child)) hwf.2
      dsimp only at hrest
      have hcf : Function.invOkList
          (visit (init false none false) child).functions = true :=
        hc.2.1 (by simp [Function.invOkList])
      have hcc : (0 : Int) ≤ (visit (init false none false) child).complexity := by
        have := hc.1
        simpa [init] using this
      have hfc : (0 : Int) ≤ functions_complexity
          (visit (init false none false) child) :=
        functions_complexity_nonneg _ hcf
      constructor
      · have := hrest.1
        simp only [visitFuncBody]
        linarith
      · intro h
        simp only [visitFuncBody]
        exact hrest.2 (by
          simp only [Function.invOkList_append, Bool.and_eq_true]
          exact ⟨h, hcf⟩)

theorem visitClassBody_inv : ∀ (cn : String) (body : List Node)
    (acc : List Function × Int),
    Node.wfList body = true →
    acc.2 ≤ (visitClassBody cn body acc).2 ∧
    (Function.invOkList acc.1 = true →
      Function.invOkList (visitClassBody cn body acc).1 = true)
  | cn, [], acc => fun _ => ⟨le_refl _, fun h => h⟩
  | cn, child :: rest, acc => by
      intro hwf
      simp only [Node.wfList, Bool.and_eq_true] at hwf
      have hc := visit_inv child (init true (some cn) false) hwf.1
      have hrest := visitClassBody_inv cn rest
        (acc.1 ++ (visit (init true (some cn) false) child).functions,
         acc.2 + (visit (init true (some cn) false) child).complexity
           + functions_complexity (visit (init true (some cn) false) child))
        hwf.2
      dsimp only at hrest
      have hcf : Function.invOkList
          (visit (init true (some cn) false) child).functions = true :=
        hc.2.1 (by simp [Function.invOkList])
      have hcc : (0 : Int)
          ≤ (visit (init true (some cn) false) child).complexity := by
        have := hc.1
        simpa [init] using this
      have hfc : (0 : Int) ≤ functions_complexity
          (visit (init true (some cn) false) child) :=
        functions_complexity_nonneg _ hcf
      constructor
      · have := hrest.1
        simp only [visitClassBody]
        linarith
      · intro h
        simp only [visitClassBody]
        exact hrest.2 (by
          simp only [Function.invOkList_append, Bool.and_eq_true]
          exact ⟨h, hcf⟩)

end

end ComplexityVisitor

theorem SimL.length_eq : ∀ {l₁ l₂ : List Node}, SimL l₁ l₂ →
    l₁.length = l₂.length
  | _, _, .nil => rfl
  | _, _, .cons _ h => by simp [SimL.length_eq h]

theorem SimL.append : ∀ {a₁ a₂ b₁ b₂ : List Node}, SimL a₁ a₂ →
    SimL b₁ b₂ → SimL (a₁ ++ b₁) (a₂ ++ b₂)
  | _, _, _, _, .nil, hb => hb
  | _, _, _, _, .cons h ha, hb => by
      simpa using SimL.cons h (SimL.append ha hb)

mutual

/-- Related trees produce the same complexity-visitor run from any state:
the `FunctionDef` handler never reads the argument subtree or the decorator
list. -/
theorem cvisit_simN : ∀ {t₁ t₂ : Node}, SimN t₁ t₂ →
    ∀ s : ComplexityVisitor,
      ComplexityVisitor.visit s t₁ = ComplexityVisitor.visit s t₂
  | _, _, .funcDef hb, s => by
      simp only [ComplexityVisitor.visit, cvFuncBody_simL hb]
  | _, _, .try_ hb hh ho hf, s => by
      simp only [ComplexityVisitor.visit, SimL.length_eq hh,
        SimL.length_eq ho, cvisitList_simL hb, cvisitList_simL hh,
        cvisitList_simL ho, cvisitList_simL hf]
  | _, _, .boolOp hv, s => by
      simp only [ComplexityVisitor.visit, SimL.length_eq hv,
        cvisitList_simL hv]
  | _, _, .lambda ha hb, s => by
      simp only [ComplexityVisitor.visit, cvisitList_simL ha,
        cvisit_simN hb]
  | _, _, .with_ hi hb, s => by
      simp only [ComplexityVisitor.visit, cvisitList_simL hi,
        cvisitList_simL hb]
  | _, _, .if_ ht hb ho, s => by
      simp only [ComplexityVisitor.visit, cvisit_simN ht,
        cvisitList_simL hb, cvisitList_simL ho]
  | _, _, .ifExp ht hu hv, s => by
      simp only [ComplexityVisitor.visit, cvisit_simN ht, cvisit_simN hu,
        cvisit_simN hv]
  | _, _, .assert_ ht hm, s => by
      simp only [ComplexityVisitor.visit, cvisit_simN ht,
        cvisitList_simL hm]
  | _, _, .for_ ht hi hb ho, s => by
      simp only [ComplexityVisitor.visit, SimL.length_eq ho,
        cvisit_simN ht, cvisit_simN hi, cvisitList_simL hb,
        cvisitList_simL ho]
  | _, _, .while_ ht hb ho, s => by
      simp only [ComplexityVisitor.visit, SimL.length_eq ho,
        cvisit_simN ht, cvisitList_simL hb, cvisitList_simL ho]
  | _, _, .compr ht hi hf, s => by
      simp only [ComplexityVisitor.visit, SimL.length_eq hf,
        cvisit_simN ht, cvisit_simN hi, cvisitList_simL hf]
  | _, _, .classDef hba hd hb, s => by
      simp only [ComplexityVisitor.visit, cvClassBody_simL hb]
  | _, _, .binOp hl hr, s => by
      simp only [ComplexityVisitor.visit, cvisit_simN hl, cvisit_simN hr]
  | _, _, .unaryOp ho, s => by
      simp only [ComplexityVisitor.visit, cvisit_simN ho]
  | _, _, .augAssign ht hv, s => by
      simp only [ComplexityVisitor.visit, cvisit_simN ht, cvisit_simN hv]
  | _, _, .compare hl hc, s => by
      simp only [ComplexityVisitor.visit, cvisit_simN hl,
        cvisitList_simL hc]
  | _, _, .num, s => rfl
  | _, _, .name, s => rfl
  | _, _, .attr hv, s => by
      simp only [ComplexityVisitor.visit, cvisit_simN hv]
  | _, _, .other hc, s => by
      simp only [ComplexityVisitor.visit, cvisitList_simL hc]

theorem cvisitList_simL : ∀ {l₁ l₂ : List Node}, SimL l₁ l₂ →
    ∀ s : ComplexityVisitor,
      ComplexityVisitor.visitList s l₁ = ComplexityVisitor.visitList s l₂
  | _, _, .nil, s => rfl
  | _, _, .cons h hl, s => by
      simp only [ComplexityVisitor.visitList, cvisit_simN h,
        cvisitList_simL hl]

theorem cvFuncBody_simL : ∀ {b₁ b₂ : List Node}, SimL b₁ b₂ →
    ∀ acc : List Function × Int,
      ComplexityVisitor.visitFuncBody b₁ acc
        = ComplexityVisitor.visitFuncBody b₂ acc
  | _, _, .nil, acc => rfl
  | _, _, .cons h hl, acc => by
      simp only [ComplexityVisitor.visitFuncBody, cvisit_simN h,
        cvFuncBody_simL hl]

theorem cvClassBody_simL : ∀ {b₁ b₂ : List Node}, SimL b₁ b₂ →
    ∀ (cn : String) (acc : List Function × Int),
      ComplexityVisitor.visitClassBody cn b₁ acc
        = ComplexityVisitor.visitClassBody cn b₂ acc
  | _, _, .nil, cn, acc => rfl
  | _, _, .cons h hl, cn, acc => by
      simp only [ComplexityVisitor.visitClassBody, cvisit_simN h,
        cvClassBody_simL hl]

end

namespace HalsteadVisitor

/-- Evaluation of the `BinOp` handler on two name operands: one operator with
its label, two operands keyed by `(context, name)`, no other change. -/
theorem visit_BinOp_names (s : HalsteadVisitor) (a op b : String) :
    visit s (.BinOp (.Name a) op (.Name b))
      = { s with operators := s.operators + 1,
                 operands := s.operands + 2,
                 operators_seen := s.operators_seen ∪ {op},
                 operands_seen := insert (s.context, OperandVal.str b)
                   (insert (s.context, OperandVal.str a) s.operands_seen) } := by
  obtain ⟨os, ps, o, p, cx, ni⟩ := s
  simp [visit, step, addOperands, normalizeKey]

end HalsteadVisitor

theorem normalizeKey_simN {o₁ o₂ : Node} (h : SimN o₁ o₂) (nid : Nat) :
    HalsteadVisitor.normalizeKey o₁ nid
      = HalsteadVisitor.normalizeKey o₂ nid := by
  cases h <;> rfl

theorem addOperands_simL : ∀ {l₁ l₂ : List Node}, SimL l₁ l₂ →
    ∀ (ctx : Option String) (seen : Finset (Option String × OperandVal))
      (nid : Nat),
      HalsteadVisitor.addOperands ctx l₁ seen nid
        = HalsteadVisitor.addOperands ctx l₂ seen nid
  | _, _, .nil, ctx, seen, nid => rfl
  | _, _, .cons h hl, ctx, seen, nid => by
      simp only [HalsteadVisitor.addOperands, normalizeKey_simN h,
        addOperands_simL hl]

theorem step_simL {l₁ l₂ : List Node} (h : SimL l₁ l₂)
    (s : HalsteadVisitor) (a b : Nat) (labels : List String) :
    HalsteadVisitor.step s a b labels l₁
      = HalsteadVisitor.step s a b labels l₂ := by
  simp only [HalsteadVisitor.step, addOperands_simL h]

mutual

/-- Related trees produce the same Halstead-visitor run from any state: the
`FunctionDef` handler never reads the argument subtree or the decorator
list. -/
theorem hvisit_simN : ∀ {t₁ t₂ : Node}, SimN t₁ t₂ →
    ∀ s : HalsteadVisitor,
      HalsteadVisitor.visit s t₁ = HalsteadVisitor.visit s t₂
  | _, _, .funcDef hb, s => by
      simp only [HalsteadVisitor.visit, hvFuncBody_simL hb]
  | _, _, .try_ hb hh ho hf, s => by
      simp only [HalsteadVisitor.visit, hvisitList_simL hb,
        hvisitList_simL hh, hvisitList_simL ho, hvisitList_simL hf]
  | _, _, .boolOp hv, s => by
      simp only [HalsteadVisitor.visit, SimL.length_eq hv, step_simL hv,
        hvisitList_simL hv]
  | _, _, .lambda ha hb, s => by
      simp only [HalsteadVisitor.visit, hvisitList_simL ha, hvisit_simN hb]
  | _, _, .with_ hi hb, s => by
      simp only [HalsteadVisitor.visit, hvisitList_simL hi,
        hvisitList_simL hb]
  | _, _, .if_ ht hb ho, s => by
      simp only [HalsteadVisitor.visit, hvisit_simN ht, hvisitList_simL hb,
        hvisitList_simL ho]
  | _, _, .ifExp ht hu hv, s => by
      simp only [HalsteadVisitor.visit, hvisit_simN ht, hvisit_simN hu,
        hvisit_simN hv]
  | _, _, .assert_ ht hm, s => by
      simp only [HalsteadVisitor.visit, hvisit_simN ht, hvisitList_simL hm]
  | _, _, .for_ ht hi hb ho, s => by
      simp only [HalsteadVisitor.visit, hvisit_simN ht, hvisit_simN hi,
        hvisitList_simL hb, hvisitList_simL ho]
  | _, _, .while_ ht hb ho, s => by
      simp only [HalsteadVisitor.visit, hvisit_simN ht, hvisitList_simL hb,
        hvisitList_simL ho]
  | _, _, .compr ht hi hf, s => by
      simp only [HalsteadVisitor.visit, hvisit_simN ht, hvisit_simN hi,
        hvisitList_simL hf]
  | _, _, .classDef hba hd hb, s => by
      simp only [HalsteadVisitor.visit, hvisitList_simL hba,
        hvisitList_simL hb, hvisitList_simL hd]
  | _, _, .binOp hl hr, s => by
      simp only [HalsteadVisitor.visit,
        step_simL (SimL.cons hl (SimL.cons hr SimL.nil)), hvisit_simN hl,
        hvisit_simN hr]
  | _, _, .unaryOp ho, s => by
      simp only [HalsteadVisitor.visit,
        step_simL (SimL.cons ho SimL.nil), hvisit_simN ho]
  | _, _, .augAssign ht hv, s => by
      simp only [HalsteadVisitor.visit,
        step_simL (SimL.cons ht (SimL.cons hv SimL.nil)), hvisit_simN ht,
        hvisit_simN hv]
  | _, _, .compare hl hc, s => by
      simp only [HalsteadVisitor.visit, SimL.length_eq hc,
        step_simL (SimL.append hc (SimL.cons hl SimL.nil)), hvisit_simN hl,
        hvisitList_simL hc]
  | _, _, .num, s => rfl
  | _, _, .name, s => rfl
  | _, _, .attr hv, s => by
      simp only [HalsteadVisitor.visit, hvisit_simN hv]
  | _, _, .other hc, s => by
      simp only [HalsteadVisitor.visit, hvisitList_simL hc]

theorem hvisitList_simL : ∀ {l₁ l₂ : List Node}, SimL l₁ l₂ →
    ∀ s : HalsteadVisitor,
      HalsteadVisitor.visitList s l₁ = HalsteadVisitor.visitList s l₂
  | _, _, .nil, s => rfl
  | _, _, .cons h hl, s => by
      simp only [HalsteadVisitor.visitList, hvisit_simN h,
        hvisitList_simL hl]

theorem hvFuncBody_simL : ∀ {b₁ b₂ : List Node}, SimL b₁ b₂ →
    ∀ (fname : String) (s : HalsteadVisitor),
      HalsteadVisitor.visitFuncBody fname b₁ s
        = HalsteadVisitor.visitFuncBody fname b₂ s
  | _, _, .nil, fname, s => rfl
  | _, _, .cons h hl, fname, s => by
      simp only [HalsteadVisitor.visitFuncBody, hvisit_simN h,
        hvFuncBody_simL hl]

end

/-! ## Claim theorems -/

open ComplexityVisitor in
/-- C1: `total_complexity` is the same whether the engine starts with
offset 1 (`off = true`) or offset 0 (`off = false`), and it always equals
counter + functions complexity + classes complexity + (1 when the start
offset was 0): exactly one base unit is present in either configuration. -/
theorem C1_total_complexity_off_invariant :
    (∀ (t : Node) (m : Bool) (cn : Option String),
      (visit (init m cn true) t).total_complexity
        = (visit (init m cn false) t).total_complexity) ∧
    (∀ s : ComplexityVisitor,
      s.total_complexity = s.complexity + s.functions_complexity
        + s.classes_complexity + (if s.off then 0 else 1)) := by
  constructor
  · intro t m cn
    have h₁ := visit_applyDelta t (init m cn true)
    have h₂ := visit_applyDelta t (init m cn false)
    simp only [init_to_method, init_classname] at h₁ h₂
    rw [h₁, h₂]
    simp [total_complexity, functions_complexity, classes_complexity, init,
      applyDelta]
    omega
  · intro s
    rfl

open ComplexityVisitor in
/-- C3: the `FunctionDef` handler runs a fresh child engine with start
offset 0 on each top-level body statement, collects every function the
children discover as clojures, and sets the complexity to
`1 + Σ (child counter + child functions complexity)`; a function `g` defined
inside `f` appears in the clojure list of `f` and never in the top-level
function list; a function whose body is a single `if` statement has
complexity 2. -/
theorem C3_visit_FunctionDef_behaviour :
    (∀ (s : ComplexityVisitor) (name : String) (lineno col : Nat)
        (args decorators body : List Node),
      visit s (.FunctionDef name lineno col args decorators body)
        = { s with functions := s.functions ++
            [Function.mk name lineno col s.to_method s.classname
              (body.flatMap
                (fun st => (visit (init false none false) st).functions))
              (1 + (body.map
                (fun st => (visit (init false none false) st).complexity
                  + functions_complexity
                      (visit (init false none false) st))).sum)] }) ∧
    (∀ (f g : String) (lf cf lg cg : Nat)
        (fa fd ga gd gbody : List Node), f ≠ g →
      ((visit (init false none true)
          (.Other "Module" [.FunctionDef f lf cf fa fd
            [.FunctionDef g lg cg ga gd gbody]])).functions.map
          Function.name = [f]) ∧
      ((visit (init false none true)
          (.Other "Module" [.FunctionDef f lf cf fa fd
            [.FunctionDef g lg cg ga gd gbody]])).functions.map
          (fun fr => fr.clojures.map Function.name) = [[g]]) ∧
      (g ∉ (visit (init false none true)
          (.Other "Module" [.FunctionDef f lf cf fa fd
            [.FunctionDef g lg cg ga gd gbody]])).functions.map
          Function.name)) ∧
    (∀ (m : Bool) (cn : Option String) (o : Bool) (name : String)
        (lineno col : Nat) (args decorators : List Node) (x : String),
      (visit (init m cn o) (.FunctionDef name lineno col args decorators
          [.If (.Name x) [.Other "Pass" []] []])).functions.map
        Function.complexity = [2]) := by
  refine ⟨?_, ?_, ?_⟩
  · intro s name lineno col args decorators body
    simp [visit, visitFuncBody_spec]
  · intro f g lf cf lg cg fa fd ga gd gbody hfg
    refine ⟨?_, ?_, ?_⟩ <;>
      simp [visit, visitList, visitFuncBody, Function.name, Function.clojures,
        Ne.symm hfg]
  · intro m cn o name lineno col args decorators x
    simp [visit, visitList, visitFuncBody, init, functions_complexity,
      Function.complexity, bump]

open ComplexityVisitor in
/-- Witness for C3 at concrete names: with `f ≠ g` discharged, `g` is not in
the top-level function list of the module defining `g` inside `f`. -/
theorem C3_witness :
    ("f" : String) ≠ "g" ∧
    "g" ∉ (visit (init false none true)
        (.Other "Module" [.FunctionDef "f" 1 0 [] []
          [.FunctionDef "g" 2 4 [] [] [.Other "Pass" []]]])).functions.map
        Function.name :=
  ⟨by decide,
    (C3_visit_FunctionDef_behaviour.2.1 "f" "g" 1 0 2 4 [] [] [] []
      [.Other "Pass" []] (by decide)).2.2⟩

open ComplexityVisitor in
/-- C4: for every node that is not a function or class definition, the
visitor adds exactly the per-kind contribution of the table in
`ComplexityVisitor.contribution` to its counter and then recurses into every
child (in `ast.iter_child_nodes` order); kinds outside the table add 0 but
are still recursed into. -/
theorem C4_generic_visit_contribution (s : ComplexityVisitor) (n : Node)
    (h₁ : n.isFunctionDef = false) (h₂ : n.isClassDef = false) :
    visit s n = visitList (s.bump (contribution n)) n.childrenOf := by
  cases n <;>
    simp_all [Node.isFunctionDef, Node.isClassDef, visit, visitList,
      contribution, Node.childrenOf, visitList_append]

open ComplexityVisitor in
/-- Witness for C4 at a concrete `for` loop with a one-statement `else`
clause: the hypotheses hold and the visitor performs the table step. -/
theorem C4_witness :
    Node.isFunctionDef
        (.For (.Name "i") (.Name "xs") [.Other "Pass" []] [.Other "Pass" []])
      = false ∧
    Node.isClassDef
        (.For (.Name "i") (.Name "xs") [.Other "Pass" []] [.Other "Pass" []])
      = false ∧
    visit (init false none true)
        (.For (.Name "i") (.Name "xs") [.Other "Pass" []] [.Other "Pass" []])
      = visitList ((init false none true).bump (contribution
          (.For (.Name "i") (.Name "xs") [.Other "Pass" []]
            [.Other "Pass" []])))
        (Node.childrenOf (.For (.Name "i") (.Name "xs") [.Other "Pass" []]
          [.Other "Pass" []])) :=
  ⟨rfl, rfl, C4_generic_visit_contribution _ _ rfl rfl⟩

/-- C2: reading `blocks` is NOT side-effect-free.  On a module holding one
class with one method: before any read the functions list is empty and
`total_complexity` is 1; the first read returns 2 entries and leaves them in
the functions list, after which `total_complexity` reads 2; a second read
returns 4 entries (every block twice).  The aliasing `blocks =
self.functions` in the source makes the property a mutation. -/
theorem C2_blocks_read_mutates :
    ((ComplexityVisitor.visit (.init false none true)
        (.Other "Module" [.ClassDef "C" 1 0 [] []
          [.FunctionDef "m" 2 4 [] []
            [.Other "Pass" []]]])).toEngine.functionsCell.length = 0) ∧
    ((ComplexityVisitor.visit (.init false none true)
        (.Other "Module" [.ClassDef "C" 1 0 [] []
          [.FunctionDef "m" 2 4 [] []
            [.Other "Pass" []]]])).toEngine.total_complexity = 1) ∧
    (((ComplexityVisitor.visit (.init false none true)
        (.Other "Module" [.ClassDef "C" 1 0 [] []
          [.FunctionDef "m" 2 4 [] []
            [.Other "Pass" []]]])).toEngine.blocksRead.1.length = 2) ∧
    ((ComplexityVisitor.visit (.init false none true)
        (.Other "Module" [.ClassDef "C" 1 0 [] []
          [.FunctionDef "m" 2 4 [] []
            [.Other "Pass" []]]])).toEngine.blocksRead.2.functionsCell.length
      = 2) ∧
    ((ComplexityVisitor.visit (.init false none true)
        (.Other "Module" [.ClassDef "C" 1 0 [] []
          [.FunctionDef "m" 2 4 [] []
            [.Other "Pass" []]]])).toEngine.blocksRead.2.total_complexity = 2) ∧
    ((ComplexityVisitor.visit (.init false none true)
        (.Other "Module" [.ClassDef "C" 1 0 [] []
          [.FunctionDef "m" 2 4 [] []
            [.Other "Pass" []]]])).toEngine.blocksRead.2.blocksRead.1.length
      = 4)) := by
  refine ⟨?_, ?_, ?_, ?_, ?_, ?_⟩ <;> decide

open ComplexityVisitor in
/-- C5 counterexample: on the Scenario C tree — a class with one method whose
body is a `for` loop with no `else` clause — the engine produces
`real_complexity = 2` and derived `complexity = 3`, not the 3 and 4 the claim
states.  The method contributes `complexity - 1 = 1` on top of the class base
unit 1. -/
theorem C5_counterexample :
    ((ComplexityVisitor.visit (.init false none true)
        (.Other "Module" [.ClassDef "C" 1 0 [] []
          [.FunctionDef "m" 2 4 [] []
            [.For (.Name "i") (.Name "xs") [.Other "Pass" []] []]]])).classes.map
        Class.real_complexity ≠ [3]) ∧
    ((ComplexityVisitor.visit (.init false none true)
        (.Other "Module" [.ClassDef "C" 1 0 [] []
          [.FunctionDef "m" 2 4 [] []
            [.For (.Name "i") (.Name "xs") [.Other "Pass" []] []]]])).classes.map
        Class.complexity ≠ [4]) := by
  refine ⟨?_, ?_⟩ <;> decide

open ComplexityVisitor in
/-- C5 amended: for a class whose body is a single method containing a `for`
loop with no `else` clause, the method complexity is 2, the class
`real_complexity` is `1 + (2 - 1) = 2`, and the derived class complexity is
`floor(2/1) + 1 = 3`. -/
theorem C5_class_with_for_method (cname mname i xs : String)
    (lc cc lm cm : Nat) :
    ((ComplexityVisitor.visit (.init false none true)
        (.Other "Module" [.ClassDef cname lc cc [] []
          [.FunctionDef mname lm cm [] []
            [.For (.Name i) (.Name xs) [.Other "Pass" []] []]]])).classes.map
        (fun c => c.methods.map Function.complexity) = [[2]]) ∧
    ((ComplexityVisitor.visit (.init false none true)
        (.Other "Module" [.ClassDef cname lc cc [] []
          [.FunctionDef mname lm cm [] []
            [.For (.Name i) (.Name xs) [.Other "Pass" []] []]]])).classes.map
        Class.real_complexity = [2]) ∧
    ((ComplexityVisitor.visit (.init false none true)
        (.Other "Module" [.ClassDef cname lc cc [] []
          [.FunctionDef mname lm cm [] []
            [.For (.Name i) (.Name xs) [.Other "Pass" []] []]]])).classes.map
        Class.complexity = [3]) := by
  refine ⟨rfl, rfl, ?_⟩
  have hcls : (ComplexityVisitor.visit (.init false none true)
      (.Other "Module" [.ClassDef cname lc cc [] []
        [.FunctionDef mname lm cm [] []
          [.For (.Name i) (.Name xs) [.Other "Pass" []] []]]])).classes
      = [⟨cname, lc, cc, [Function.mk mname lm cm true (some cname) [] 2], 2⟩] :=
    rfl
  rw [hcls]
  simp [Class.complexity]

/-- C6: the derived class complexity is `real_complexity` when there are no
methods, and `floor(real_complexity / method_count) + 1` (floor division,
`Int.fdiv`) when there is at least one method and `real_complexity` is
nonnegative — as it always is for records the engine produces (claim C9); in
particular with two methods it is `floor(real_complexity / 2) + 1`. -/
theorem C6_class_complexity_formula (c : Class) :
    (c.methods = [] → c.complexity = c.real_complexity) ∧
    (c.methods ≠ [] → 0 ≤ c.real_complexity →
      c.complexity = Int.fdiv c.real_complexity c.methods.length + 1) ∧
    (c.methods.length = 2 → 0 ≤ c.real_complexity →
      c.complexity = Int.fdiv c.real_complexity 2 + 1) := by
  refine ⟨?_, ?_, ?_⟩
  · intro h
    simp [Class.complexity, h]
  · intro h hr
    have hne : ¬ c.methods.isEmpty := by
      simpa [List.isEmpty_iff] using h
    rw [Class.complexity, if_neg hne,
      Int.tdiv_eq_ediv hr (by positivity),
      Int.fdiv_eq_ediv _ (by positivity)]
  · intro h hr
    have hne : ¬ c.methods.isEmpty := by
      simp [List.isEmpty_iff, ← List.length_eq_zero, h]
    rw [Class.complexity, if_neg hne, h,
      Int.tdiv_eq_ediv hr (by norm_num),
      Int.fdiv_eq_ediv _ (by norm_num)]
    norm_num

/-- Witness for C6: a class with no methods keeps its real complexity, and a
class with two methods and real complexity 7 gets `floor(7/2) + 1 = 4`. -/
theorem C6_witness :
    (Class.complexity ⟨"A", 1, 0, [], 5⟩ = 5) ∧
    (Class.complexity ⟨"B", 1, 0,
      [Function.mk "m1" 2 4 true (some "B") [] 3,
       Function.mk "m2" 5 4 true (some "B") [] 5], 7⟩ = Int.fdiv 7 2 + 1) :=
  ⟨(C6_class_complexity_formula ⟨"A", 1, 0, [], 5⟩).1 rfl,
   by
    have h := (C6_class_complexity_formula ⟨"B", 1, 0,
      [Function.mk "m1" 2 4 true (some "B") [] 3,
       Function.mk "m2" 5 4 true (some "B") [] 5], 7⟩).2.2 rfl (by decide)
    simpa using h⟩

open HalsteadVisitor in
/-- C8: a binary-operation node adds exactly one operator (its kind label)
and two operands (left and right, normalised); for a module whose only
statement is `x = a + b` the engine reports 1 operator, 1 distinct operator,
2 operands and 2 distinct operands with keys `(absent, a)` and
`(absent, b)`. -/
theorem C8_binop_counts :
    (∀ (s : HalsteadVisitor) (a op b : String),
      HalsteadVisitor.visit s (.BinOp (.Name a) op (.Name b))
        = { s with operators := s.operators + 1,
                   operands := s.operands + 2,
                   operators_seen := s.operators_seen ∪ {op},
                   operands_seen := insert (s.context, OperandVal.str b)
                     (insert (s.context, OperandVal.str a)
                       s.operands_seen) }) ∧
    (∀ (x a op b : String), a ≠ b →
      (HalsteadVisitor.visit (.init none 0)
          (.Other "Module" [.Other "Assign"
            [.Name x, .BinOp (.Name a) op (.Name b)]])).operators = 1 ∧
      (HalsteadVisitor.visit (.init none 0)
          (.Other "Module" [.Other "Assign"
            [.Name x, .BinOp (.Name a) op (.Name b)]])).distinct_operators
        = 1 ∧
      (HalsteadVisitor.visit (.init none 0)
          (.Other "Module" [.Other "Assign"
            [.Name x, .BinOp (.Name a) op (.Name b)]])).operands = 2 ∧
      (HalsteadVisitor.visit (.init none 0)
          (.Other "Module" [.Other "Assign"
            [.Name x, .BinOp (.Name a) op (.Name b)]])).distinct_operands
        = 2 ∧
      (HalsteadVisitor.visit (.init none 0)
          (.Other "Module" [.Other "Assign"
            [.Name x, .BinOp (.Name a) op (.Name b)]])).operands_seen
        = {((none : Option String), OperandVal.str a),
           (none, OperandVal.str b)}) := by
  refine ⟨fun s a op b => visit_BinOp_names s a op b, ?_⟩
  intro x a op b hab
  have hE : HalsteadVisitor.visit (.init none 0)
      (.Other "Module" [.Other "Assign"
        [.Name x, .BinOp (.Name a) op (.Name b)]])
      = ⟨{op}, {((none : Option String), OperandVal.str a),
          (none, OperandVal.str b)}, 1, 2, none, 0⟩ := by
    simp [HalsteadVisitor.visit, HalsteadVisitor.visitList,
      HalsteadVisitor.init, HalsteadVisitor.step, HalsteadVisitor.addOperands,
      HalsteadVisitor.normalizeKey]
    apply Finset.pair_comm
  rw [hE]
  refine ⟨rfl, rfl, rfl, ?_, rfl⟩
  show ({((none : Option String), OperandVal.str a),
    (none, OperandVal.str b)} : Finset _).card = 2
  rw [Finset.card_insert_of_not_mem (by simp [hab]), Finset.card_singleton]

open HalsteadVisitor in
/-- Witness for C8 with `x, a, +, b` concrete. -/
theorem C8_witness :
    ("a" : String) ≠ "b" ∧
    (HalsteadVisitor.visit (.init none 0)
        (.Other "Module" [.Other "Assign"
          [.Name "x", .BinOp (.Name "a") "Add" (.Name "b")]])).distinct_operands
      = 2 :=
  ⟨by decide,
    (C8_binop_counts.2 "x" "a" "Add" "b" (by decide)).2.2.2.1⟩

open HalsteadVisitor in
/-- C7: operand distinctness is keyed by `(context, normalised value)`.  With
the same identifier `v` used twice as an operand at module level, twice
inside function `f` and twice inside function `g`, the engine counts 6
operand occurrences but exactly three distinct keys — one per context —
provided `f ≠ g`; within one context the repeated use collapses to one
key. -/
theorem C7_operand_context_distinctness (f g v t op : String) (lf lg : Nat) :
    (HalsteadVisitor.operands (HalsteadVisitor.visit (.init none 0)
        (.Other "Module"
          [.Other "Assign" [.Name t, .BinOp (.Name v) op (.Name v)],
           .FunctionDef f lf 0 [] []
             [.Other "Assign" [.Name t, .BinOp (.Name v) op (.Name v)]],
           .FunctionDef g lg 0 [] []
             [.Other "Assign" [.Name t, .BinOp (.Name v) op (.Name v)]]]))
      = 6) ∧
    (HalsteadVisitor.operands_seen (HalsteadVisitor.visit (.init none 0)
        (.Other "Module"
          [.Other "Assign" [.Name t, .BinOp (.Name v) op (.Name v)],
           .FunctionDef f lf 0 [] []
             [.Other "Assign" [.Name t, .BinOp (.Name v) op (.Name v)]],
           .FunctionDef g lg 0 [] []
             [.Other "Assign" [.Name t, .BinOp (.Name v) op (.Name v)]]]))
      = {((none : Option String), OperandVal.str v),
         (some f, OperandVal.str v), (some g, OperandVal.str v)}) ∧
    (f ≠ g →
      HalsteadVisitor.distinct_operands (HalsteadVisitor.visit (.init none 0)
        (.Other "Module"
          [.Other "Assign" [.Name t, .BinOp (.Name v) op (.Name v)],
           .FunctionDef f lf 0 [] []
             [.Other "Assign" [.Name t, .BinOp (.Name v) op (.Name v)]],
           .FunctionDef g lg 0 [] []
             [.Other "Assign" [.Name t, .BinOp (.Name v) op (.Name v)]]]))
        = 3) := by
  have hseen : HalsteadVisitor.operands_seen (HalsteadVisitor.visit
      (.init none 0)
      (.Other "Module"
        [.Other "Assign" [.Name t, .BinOp (.Name v) op (.Name v)],
         .FunctionDef f lf 0 [] []
           [.Other "Assign" [.Name t, .BinOp (.Name v) op (.Name v)]],
         .FunctionDef g lg 0 [] []
           [.Other "Assign" [.Name t, .BinOp (.Name v) op (.Name v)]]]))
      = {((none : Option String), OperandVal.str v),
         (some f, OperandVal.str v), (some g, OperandVal.str v)} := by
    simp [HalsteadVisitor.visit, HalsteadVisitor.visitList,
      HalsteadVisitor.visitFuncBody, HalsteadVisitor.init,
      HalsteadVisitor.step, HalsteadVisitor.addOperands,
      HalsteadVisitor.normalizeKey]
    ext y
    simp
  refine ⟨?_, hseen, ?_⟩
  · simp [HalsteadVisitor.visit, HalsteadVisitor.visitList,
      HalsteadVisitor.visitFuncBody, HalsteadVisitor.init,
      HalsteadVisitor.step, HalsteadVisitor.addOperands,
      HalsteadVisitor.normalizeKey]
  · intro hfg
    rw [HalsteadVisitor.distinct_operands, hseen,
      Finset.card_insert_of_not_mem (by simp),
      Finset.card_insert_of_not_mem (by simp [hfg]),
      Finset.card_singleton]

open HalsteadVisitor in
/-- Witness for C7 with concrete names: three distinct operand keys for the
one identifier used in three contexts. -/
theorem C7_witness :
    ("f" : String) ≠ "g" ∧
    HalsteadVisitor.distinct_operands (HalsteadVisitor.visit (.init none 0)
        (.Other "Module"
          [.Other "Assign" [.Name "t", .BinOp (.Name "v") "Add" (.Name "v")],
           .FunctionDef "f" 2 0 [] []
             [.Other "Assign"
               [.Name "t", .BinOp (.Name "v") "Add" (.Name "v")]],
           .FunctionDef "g" 4 0 [] []
             [.Other "Assign"
               [.Name "t", .BinOp (.Name "v") "Add" (.Name "v")]]]))
      = 3 :=
  ⟨by decide,
    (C7_operand_context_distinctness "f" "g" "v" "t" "Add" 2 4).2.2 (by decide)⟩

/-- C9: on a well-formed tree (every boolean chain has at least its two
operands, as `ast.parse` guarantees), every `Function` record the engine
produces — top level, clojure or method, through arbitrary nesting — has
complexity at least 1, and every `Class` record has real complexity at least
1.  `Function.invOkList`/`Class.invOkList` state exactly this, recursively
through clojures and methods. -/
theorem C9_record_invariants (t : Node) (m : Bool) (cn : Option String)
    (o : Bool) (h : Node.wf t = true) :
    Function.invOkList
        (ComplexityVisitor.visit (.init m cn o) t).functions = true ∧
    Class.invOkList (ComplexityVisitor.visit (.init m cn o) t).classes
      = true := by
  have hs := ComplexityVisitor.visit_inv t (.init m cn o) h
  exact ⟨hs.2.1 rfl, hs.2.2 rfl⟩

/-- Witness for C9 on a module with a nested function and a class with one
method. -/
theorem C9_witness :
    Node.wf (.Other "Module"
      [.FunctionDef "f" 1 0 [] [] [.FunctionDef "g" 2 4 [] []
        [.Other "Pass" []]],
       .ClassDef "C" 3 0 [] [] [.FunctionDef "m" 4 4 [] []
        [.If (.Name "x") [.Other "Pass" []] []]]]) = true ∧
    Function.invOkList (ComplexityVisitor.visit (.init false none true)
      (.Other "Module"
        [.FunctionDef "f" 1 0 [] [] [.FunctionDef "g" 2 4 [] []
          [.Other "Pass" []]],
         .ClassDef "C" 3 0 [] [] [.FunctionDef "m" 4 4 [] []
          [.If (.Name "x") [.Other "Pass" []] []]]])).functions = true :=
  ⟨by decide,
    (C9_record_invariants (.Other "Module"
      [.FunctionDef "f" 1 0 [] [] [.FunctionDef "g" 2 4 [] []
        [.Other "Pass" []]],
       .ClassDef "C" 3 0 [] [] [.FunctionDef "m" 4 4 [] []
        [.If (.Name "x") [.Other "Pass" []] []]]])
      false none true (by decide)).1⟩

/-- C10: two trees that are identical except for the argument subtrees
(default-argument expressions included) and decorator lists of function
definitions (the relation `SimN`) produce identical results from both
engines, from any starting state: neither `visit_FunctionDef` handler visits
anything outside the function body. -/
theorem C10_function_args_decorators_ignored {t₁ t₂ : Node}
    (h : SimN t₁ t₂) :
    (∀ s : ComplexityVisitor,
      ComplexityVisitor.visit s t₁ = ComplexityVisitor.visit s t₂) ∧
    (∀ s : HalsteadVisitor,
      HalsteadVisitor.visit s t₁ = HalsteadVisitor.visit s t₂) :=
  ⟨cvisit_simN h, hvisit_simN h⟩

/-- Witness for C10: a function with a decorator and no arguments versus the
same function with no decorator and one argument — both engines give the same
result. -/
theorem C10_witness :
    (ComplexityVisitor.visit (.init false none true)
        (.FunctionDef "f" 1 0 [] [.Name "deco"] [.Other "Pass" []])
      = ComplexityVisitor.visit (.init false none true)
        (.FunctionDef "f" 1 0 [.Name "arg"] [] [.Other "Pass" []])) ∧
    (HalsteadVisitor.visit (.init none 0)
        (.FunctionDef "f" 1 0 [] [.Name "deco"] [.Other "Pass" []])
      = HalsteadVisitor.visit (.init none 0)
        (.FunctionDef "f" 1 0 [.Name "arg"] [] [.Other "Pass" []])) :=
  ⟨(C10_function_args_decorators_ignored
      (SimN.funcDef (SimL.cons (SimN.other SimL.nil) SimL.nil))).1 _,
   (C10_function_args_decorators_ignored
      (SimN.funcDef (SimL.cons (SimN.other SimL.nil) SimL.nil))).2 _⟩

end Radon
